import Mathlib

/-!
Verification of the powa-web SQL utility module (`powa/sql/__init__.py`).

Shallow embedding of the qual-resolution and hypothetical-index pipeline:
`format_jumbled_query`, `ResolvedQual`, `ComposedQual`, `resolve_quals`,
`qual_constants`, `quote_ident`, `HypoPlan.gain_percent`, `HypoIndex.ddl`
and `possible_indexes`.

Python strings are Lean `String`s, Python numbers (floats coming from the
catalog or plan costs) are `ℚ`, Python exceptions are an explicit `PyError`
carried in `Except`, and the database connection is modelled by the two
catalog mappings it can answer, plus an explicit log of the catalog queries
issued.
-/

namespace Powa

/-- Python exceptions that the embedded code can raise. -/
inductive PyError where
  | typeError : PyError
  | keyError : PyError
  | valueError : String → PyError
deriving DecidableEq, Repr

/-! Section: `format_jumbled_query` (lines 21-27).

```python
def format_jumbled_query(sql, params):
    it = iter(params)
    try:
        sql = re.sub("\?", lambda val: next(it), sql)
    except StopIteration:
        pass
    return sql
```

`re.sub` scans `sql` and replaces every literal `?` with the next element
of `params`.  When the iterator is exhausted, the `next(it)` inside the
replacement lambda raises `StopIteration`; the exception propagates out of
`re.sub` before its result is assigned, so `sql` keeps its *original*
value and is returned unchanged. -/

/-- One pass of `re.sub("\?", lambda val: next(it), sql)`: replace each `?`
with the head of the remaining params; `none` models the `StopIteration`
raised when the params run out at some placeholder. -/
def subChars : List Char → List String → Option (List Char)
  | [], _ => some []
  | c :: rest, params =>
    if c = '?' then
      match params with
      | [] => none
      | p :: ps => (subChars rest ps).map (fun r => p.data ++ r)
    else
      (subChars rest params).map (fun r => c :: r)

/-- Model of `format_jumbled_query`: on `StopIteration` the assignment to `sql`
never happens, so the original string is returned. -/
def format_jumbled_query (sql : String) (params : List String) : String :=
  match subChars sql.data params with
  | some r => String.mk r
  | none => sql

/-! Section: data model. -/

/-- One raw predicate reference inside a row's qual attribute: carries the
operator oid (`opno`), the relation id (compared against the string
sentinel `'0'` in the source), the attribute number and the
evaluation-type tag. -/
structure QualRef where
  opno : Nat
  relid : String
  attnum : Nat
  eval_type : String
deriving DecidableEq, Repr

/-- The value of a row's qual attribute: either a single predicate
reference object or a list of them (`row[attribute]` in the source). -/
inductive QualValues where
  | single : QualRef → QualValues
  | list : List QualRef → QualValues
deriving DecidableEq, Repr

/-- One input row of `resolve_quals`: the qual attribute plus the
count/filtered-count/filter-ratio/group-id fields read in the second pass. -/
structure QualRow where
  quals : QualValues
  count : ℚ
  nbfiltered : ℚ
  filter_ratio : ℚ
  qualid : Nat
deriving DecidableEq, Repr

/-- The operator record returned by the `RESOLVE_OPNAME` catalog query:
operator name and the names of the compatible index access methods. -/
structure OpRecord where
  name : String
  indexam_names : List String
deriving DecidableEq, Repr

/-- The attribute record returned by the `RESOLVE_ATTNAME` catalog query. -/
structure AttRecord where
  relname : String
  attname : String
  nspname : String
  n_distinct : ℚ
  null_frac : ℚ
  most_common_values : Option String
  table_liverows : Nat
deriving DecidableEq, Repr

/-- Embedding of `ResolvedQual` (lines 74-102): one fully-named predicate instance. -/
structure ResolvedQual where
  nspname : String
  relname : String
  attname : String
  opname : String
  indexam_names : List String
  n_distinct : ℚ
  most_common_values : Option String
  null_frac : ℚ
  example_values : List String
  eval_type : String
deriving DecidableEq, Repr

/-- Embedding of `ComposedQual` (lines 105-143): a conjunction of `ResolvedQual`s.
`relname`, `nspname` and `table_liverows` start as `None` and are filled
lazily from the first resolved part; `_quals` is the append-only ordered
sequence of parts. -/
structure ComposedQual where
  qualid : Option Nat
  relname : Option String
  nspname : Option String
  nbfiltered : Option ℚ
  filter_ratio : Option ℚ
  count : Option ℚ
  table_liverows : Option Nat
  quals : List ResolvedQual
deriving DecidableEq, Repr

/-- Embedding of `ComposedQual.append` (lines 123-127).  The source only checks
`isinstance(element, ResolvedQual)`; here the typing discharges that
check, and the element is appended to `_quals`. -/
def ComposedQual.append (cq : ComposedQual) (element : ResolvedQual) : ComposedQual :=
  { cq with quals := cq.quals ++ [element] }

/-! Section: `quote_ident` and `HypoIndex.ddl` (lines 269-270, 344-360). -/

/-- Embedding of `quote_ident`: wrap the identifier in double quotes. -/
def quote_ident (name : String) : String := "\"" ++ name ++ "\""

/-- Embedding of `HypoIndex` (lines 344-351): a proposed index. -/
structure HypoIndex where
  nspname : String
  relname : String
  amname : String
  qual : List ResolvedQual
  name : Option String
deriving DecidableEq, Repr

/-- Embedding of `HypoIndex.ddl` (lines 353-360): only btree yields DDL; every other
access method falls off the end of the property and returns `None`. -/
def HypoIndex.ddl (hi : HypoIndex) : Option String :=
  if hi.amname = "btree" then
    some ("CREATE INDEX ON " ++ quote_ident hi.nspname ++ "." ++ quote_ident hi.relname
      ++ "(" ++ String.intercalate "," (hi.qual.map (fun q => quote_ident q.attname)) ++ ")")
  else
    none

/-! Section: `HypoPlan.gain_percent` (lines 328-342). -/

/-- Round-half-to-even on a rational, the rounding mode of Python's
built-in `round`. -/
def roundHalfEven (x : ℚ) : ℤ :=
  let f := ⌊x⌋
  let r := x - f
  if r < 1/2 then f
  else if 1/2 < r then f + 1
  else if f % 2 = 0 then f else f + 1

/-- Python's `round(x, 2)`: round to two decimal places. -/
def pyRound2 (x : ℚ) : ℚ := (roundHalfEven (x * 100) : ℚ) / 100

/-- Embedding of `HypoPlan` (lines 328-338): evaluation result; costs are the numeric
values of the cost strings extracted from the plan texts. -/
structure HypoPlan where
  baseplan : String
  basecost : ℚ
  hypoplan : String
  hypocost : ℚ
  query : String
  indexes : List HypoIndex
deriving DecidableEq, Repr

/-- Embedding of `HypoPlan.gain_percent` (lines 340-342):
`round(100 - float(self.hypocost) * 100 / float(self.basecost), 2)`.
Python float division by zero raises `ZeroDivisionError`, modelled as the
error branch; `ℚ` division would silently yield 0 there, so the guard
makes the fault explicit exactly where the source faults. -/
def HypoPlan.gain_percent (p : HypoPlan) : Except String ℚ :=
  if p.basecost = 0 then Except.error "ZeroDivisionError"
  else Except.ok (pyRound2 (100 - p.hypocost * 100 / p.basecost))

/-! Section: `ResolvedQual.distinct_values` (lines 97-102). -/

/-- The fractional digits of `n < 10^6` as Python prints them after the
decimal point: six digits, trailing zeros stripped, `"0"` when nothing
remains. -/
def fracDigits (n : ℕ) : String :=
  let padded := List.replicate (6 - (Nat.toDigits 10 n).length) '0' ++ Nat.toDigits 10 n
  let stripped := (padded.reverse.dropWhile (fun c => c = '0')).reverse
  if stripped.isEmpty then "0" else String.mk stripped

/-- Model of Python's `str()` on a float holding the rational `q`, exact
for values with at most six decimal digits (the form the claims and the
statistics values take): sign, integer part, a dot, then the fractional
digits with at least one digit printed (`50` prints as `"50.0"`). -/
def pyFloatRepr (q : ℚ) : String :=
  let sign := if q < 0 then "-" else ""
  let a := |q|
  let ip := (⌊a⌋).toNat
  let frac := (⌊(a - ⌊a⌋) * 1000000⌋).toNat
  sign ++ toString ip ++ "." ++ fracDigits frac

/-- Embedding of `ResolvedQual.distinct_values` (lines 97-102): positive `n_distinct`
renders as the plain number, otherwise as `abs(n_distinct) * 100`
followed by `" %"` (the `%%` in the format string is a literal percent). -/
def ResolvedQual.distinct_values (rq : ResolvedQual) : String :=
  if 0 < rq.n_distinct then pyFloatRepr rq.n_distinct
  else pyFloatRepr (|rq.n_distinct| * 100) ++ " %"

/-! Section: `qual_constants` (lines 219-267). -/

/-- The pre-compiled boolean filter condition handed to `qual_constants`:
modelled by its compiled SQL text and bind parameters. -/
structure FilterClause where
  sql : String
  params : List (String × String)
deriving DecidableEq, Repr

/-- The ranking sub-query `qual_constants` builds: the fragments the
source interpolates into its SQL template plus the bound parameters
(a model of the SQLAlchemy selectable object). -/
structure RankingQuery where
  criterion : String
  compiledFilter : String
  order : String
  top_value : ℕ
  filterParams : List (String × String)
deriving DecidableEq, Repr

/-- Embedding of `qual_constants` (lines 219-267): the `orders` dict is built from
constants, then any criterion outside the three recognized ones returns
`None` before the filter clause is compiled or any query is assembled. -/
def qual_constants (type_ : String) (filter_clause : FilterClause) (top : ℕ) :
    Option RankingQuery :=
  let orders := [("most_executed", "4 DESC"), ("least_filtering", "6"),
                 ("most_filtering", "6 DESC")]
  if type_ ∉ ["most_executed", "most_filtering", "least_filtering"] then
    none
  else
    some { criterion := type_
           compiledFilter := filter_clause.sql
           order := ((orders.lookup type_).getD "")
           top_value := top
           filterParams := filter_clause.params }

/-! Section: `resolve_quals` (lines 147-211).

The database connection is modelled by the two catalog mappings it can
answer (`opCat` for `RESOLVE_OPNAME`, `attCat` for `RESOLVE_ATTNAME`),
and the queries actually issued are recorded in a log. -/

/-- A catalog query issued by `resolve_quals`: one batched operator
lookup over an oid list, or one batched attribute lookup over a
(relid, attnum) list. -/
inductive CatalogQuery where
  | opQuery : List Nat → CatalogQuery
  | attQuery : List (String × Nat) → CatalogQuery
deriving DecidableEq, Repr

/-- The first pass's per-row value normalisation (lines 164-166):
`values = row[attribute]; if not isinstance(values, list): values = [values]`. -/
def rowValues1 (row : QualRow) : List QualRef :=
  match row.quals with
  | .single v => [v]
  | .list l => l

/-- Insert into a Python set modelled as a duplicate-free list in
insertion order (only emptiness and membership matter downstream). -/
def setInsert {α : Type} [DecidableEq α] (acc : List α) (x : α) : List α :=
  if x ∈ acc then acc else acc ++ [x]

/-- First-pass collection of `operator_to_look` (lines 159-168). -/
def collectOps (rows : List QualRow) : List Nat :=
  rows.foldl (fun acc row => (rowValues1 row).foldl (fun a v => setInsert a v.opno) acc) []

/-- First-pass collection of `attname_to_look` (lines 160-169). -/
def collectAtts (rows : List QualRow) : List (String × Nat) :=
  rows.foldl
    (fun acc row => (rowValues1 row).foldl (fun a v => setInsert a (v.relid, v.attnum)) acc) []

/-- Lines 161 and 170-173: `operators = {}` stays the empty mapping when
`operator_to_look` is empty; otherwise it is the batched query's result. -/
def operatorsFor (opCat : Nat → Option OpRecord) (opSet : List Nat) :
    Nat → Option OpRecord :=
  if opSet.isEmpty then fun _ => none else opCat

/-- Lines 162 and 174-177: same for `attnames`, keyed by `"relid.attnum"`. -/
def attnamesFor (attCat : String → Option AttRecord) (attSet : List (String × Nat)) :
    String → Option AttRecord :=
  if attSet.isEmpty then fun _ => none else attCat

/-- The catalog queries issued (lines 170-177): at most one per catalog,
each only when its id set is non-empty. -/
def catalogLog (opSet : List Nat) (attSet : List (String × Nat)) : List CatalogQuery :=
  (if opSet.isEmpty then [] else [CatalogQuery.opQuery opSet])
    ++ (if attSet.isEmpty then [] else [CatalogQuery.attQuery attSet])

/-- A dictionary lookup `d[k]`: raises `KeyError` when the key is absent. -/
def getOrKeyError {α : Type} : Option α → Except PyError α
  | some a => Except.ok a
  | none => Except.error PyError.keyError

/-- The `ResolvedQual(...)` constructed at lines 201-210 from the fused
attribute and operator records and the raw reference's eval type
(`example_values` defaults to the empty list). -/
def mkResolvedQual (att : AttRecord) (op : OpRecord) (v : QualRef) : ResolvedQual :=
  { nspname := att.nspname
    relname := att.relname
    attname := att.attname
    opname := op.name
    indexam_names := op.indexam_names
    n_distinct := att.n_distinct
    most_common_values := att.most_common_values
    null_frac := att.null_frac
    example_values := []
    eval_type := v.eval_type }

/-- Second-pass handling of one predicate reference (lines 191-210):
look up the attribute record (`KeyError` if missing); if the composed
qual's relation name is already set it must match, else
`ValueError("All individual qual parts should be on the same relation")`;
on the first part the relation/namespace/live-rows are set; finally the
operator record is looked up and the fused `ResolvedQual` appended. -/
def processValue (attnames : String → Option AttRecord) (operators : Nat → Option OpRecord)
    (cq : ComposedQual) (v : QualRef) : Except PyError ComposedQual := do
  let attname ← getOrKeyError (attnames (v.relid ++ "." ++ toString v.attnum))
  let cq' ←
    match cq.relname with
    | some rn =>
        if rn ≠ attname.relname then
          Except.error (PyError.valueError
            "All individual qual parts should be on the same relation")
        else
          Except.ok cq
    | none =>
        Except.ok { cq with
                      relname := some attname.relname
                      nspname := some attname.nspname
                      table_liverows := some attname.table_liverows }
  let op ← getOrKeyError (operators v.opno)
  Except.ok (cq'.append (mkResolvedQual attname op v))

/-- Second-pass value selection (lines 188-190):
`values = [v for v in row[attribute] if v['relid'] != '0']`.
Iterating a single (non-list) dict yields its *keys* — strings — so the
comprehension's `v['relid']` raises `TypeError` on a single object; the
`isinstance` guard on the next line runs after the comprehension and can
never fire. -/
def rowValues2 (row : QualRow) : Except PyError (List QualRef) :=
  match row.quals with
  | .single _ => Except.error PyError.typeError
  | .list l => Except.ok (l.filter (fun v => v.relid ≠ "0"))

/-- Second-pass handling of one row (lines 179-210): seed a
`ComposedQual` from the row's count/filtered-count/ratio/group-id, then
fold every kept predicate reference into it. -/
def processRow (attnames : String → Option AttRecord) (operators : Nat → Option OpRecord)
    (row : QualRow) : Except PyError ComposedQual := do
  let newqual : ComposedQual :=
    { qualid := some row.qualid
      relname := none
      nspname := none
      nbfiltered := some row.nbfiltered
      filter_ratio := some row.filter_ratio
      count := some row.count
      table_liverows := none
      quals := [] }
  let values ← rowValues2 row
  values.foldlM (processValue attnames operators) newqual

/-- Embedding of `resolve_quals` (lines 147-211): collect the id sets, issue at most
one batched query per catalog, then rebuild each row into a
`ComposedQual`; any raised exception aborts the whole call.  Returns the
result together with the log of catalog queries issued. -/
def resolve_quals (opCat : Nat → Option OpRecord) (attCat : String → Option AttRecord)
    (quallist : List QualRow) :
    Except PyError (List ComposedQual) × List CatalogQuery :=
  let opSet := collectOps quallist
  let attSet := collectAtts quallist
  let operators := operatorsFor opCat opSet
  let attnames := attnamesFor attCat attSet
  (quallist.mapM (processRow attnames operators), catalogLog opSet attSet)

/-! Section: `possible_indexes` (lines 369-381). -/

/-- One step of the `by_am[am].append(qual)` on a `defaultdict(list)`,
modelled as an insertion-ordered association list: Python dicts keep
insertion order, so an existing key's list is extended in place and a
fresh key goes to the end. -/
def addToAm : List (String × List ResolvedQual) → String → ResolvedQual →
    List (String × List ResolvedQual)
  | [], am, q => [(am, [q])]
  | p :: rest, am, q =>
    if p.1 = am then (p.1, p.2 ++ [q]) :: rest else p :: addToAm rest am q

/-- Lookup of `by_am[am]` as far as it has been populated. -/
def lookupAm (acc : List (String × List ResolvedQual)) (am : String) :
    Option (List ResolvedQual) :=
  (acc.find? (fun p => p.1 = am)).map Prod.snd

/-- The grouping loop of `possible_indexes` (lines 370-373). -/
def buildByAm (quals : List ResolvedQual) : List (String × List ResolvedQual) :=
  quals.foldl (fun acc q => q.indexam_names.foldl (fun a am => addToAm a am q) acc) []

/-- The emission loop (lines 375-380): `base = quals[0]`; every group is
non-empty by construction, so the empty case is unreachable. -/
def mkIndex (am : String) (quals : List ResolvedQual) : Option HypoIndex :=
  match quals with
  | [] => none
  | base :: _ => some { nspname := base.nspname
                        relname := base.relname
                        amname := am
                        qual := quals
                        name := none }

/-- Embedding of `possible_indexes` (lines 369-381). -/
def possible_indexes (composed_qual : ComposedQual) : List HypoIndex :=
  (buildByAm composed_qual.quals).filterMap (fun p => mkIndex p.1 p.2)

/-- Decidable equality for `Except`, used to evaluate the embedded
functions on concrete inputs. -/
instance instDecidableEqExceptPowa {ε α : Type} [DecidableEq ε] [DecidableEq α] :
    DecidableEq (Except ε α) := fun x y =>
  match x, y with
  | .error a, .error b =>
      if h : a = b then Decidable.isTrue (by rw [h]) else Decidable.isFalse (by simp [h])
  | .ok a, .ok b =>
      if h : a = b then Decidable.isTrue (by rw [h]) else Decidable.isFalse (by simp [h])
  | .error _, .ok _ => Decidable.isFalse (by simp)
  | .ok _, .error _ => Decidable.isFalse (by simp)

/-- Recognizer for operator-catalog queries in the log. -/
def CatalogQuery.isOp : CatalogQuery → Bool
  | .opQuery _ => true
  | .attQuery _ => false

/-- Recognizer for attribute-catalog queries in the log. -/
def CatalogQuery.isAtt : CatalogQuery → Bool
  | .opQuery _ => false
  | .attQuery _ => true

/-! Section: sample data used to evaluate the theorems on concrete inputs. -/

/-- A sample resolved qual on relation `t` of schema `s`, parameterised by
column name and supported access methods. -/
def sampleRQ (attname : String) (ams : List String) : ResolvedQual :=
  { nspname := "s"
    relname := "t"
    attname := attname
    opname := "="
    indexam_names := ams
    n_distinct := 1
    most_common_values := none
    null_frac := 0
    example_values := []
    eval_type := "f" }

/-- A sample resolved qual with a chosen `n_distinct`. -/
def sampleRQnd (n : ℚ) : ResolvedQual :=
  { sampleRQ "a" ["btree"] with n_distinct := n }

/-- A `HypoPlan` with the given costs and empty texts. -/
def samplePlan (basecost hypocost : ℚ) : HypoPlan :=
  { baseplan := ""
    basecost := basecost
    hypoplan := ""
    hypocost := hypocost
    query := ""
    indexes := [] }

/-- A sample raw predicate reference. -/
def sampleRef : QualRef :=
  { opno := 5, relid := "1", attnum := 2, eval_type := "i" }

/-- A sample operator catalog knowing only oid 5. -/
def sampleOpCat : Nat → Option OpRecord :=
  fun n => if n = 5 then some { name := "=", indexam_names := ["btree"] } else none

/-- A sample attribute catalog knowing only key `"1.2"`. -/
def sampleAttCat : String → Option AttRecord :=
  fun k =>
    if k = "1.2" then
      some { relname := "t"
             attname := "a"
             nspname := "s"
             n_distinct := 1
             null_frac := 0
             most_common_values := none
             table_liverows := 10 }
    else none

/-- The attribute record `sampleAttCat` answers for `sampleRef`. -/
def sampleAtt : AttRecord :=
  { relname := "t"
    attname := "a"
    nspname := "s"
    n_distinct := 1
    null_frac := 0
    most_common_values := none
    table_liverows := 10 }

/-- The operator record `sampleOpCat` answers for `sampleRef`. -/
def sampleOp : OpRecord := { name := "=", indexam_names := ["btree"] }

/-- A row whose qual attribute is a single (non-list) predicate reference. -/
def sampleRowSingle : QualRow :=
  { quals := .single sampleRef, count := 3, nbfiltered := 1, filter_ratio := 0, qualid := 7 }

/-- The same row with the reference wrapped in a one-element list. -/
def sampleRowList : QualRow :=
  { quals := .list [sampleRef], count := 3, nbfiltered := 1, filter_ratio := 0, qualid := 7 }

/-- The `ComposedQual` that `resolve_quals` builds from `sampleRowList`. -/
def sampleComposed : ComposedQual :=
  { qualid := some 7
    relname := some "t"
    nspname := some "s"
    nbfiltered := some 1
    filter_ratio := some 0
    count := some 3
    table_liverows := some 10
    quals := [mkResolvedQual sampleAtt sampleOp sampleRef] }

/-- A composed qual whose two parts support btree and brin respectively. -/
def sampleComposedTwoAms : ComposedQual :=
  { qualid := some 7
    relname := some "t"
    nspname := some "s"
    nbfiltered := some 1
    filter_ratio := some 0
    count := some 3
    table_liverows := some 10
    quals := [sampleRQ "a" ["btree"], sampleRQ "b" ["brin"]] }

/-! Section: helper lemmas. -/

/-- Characterisation of the `StopIteration` case of the substitution scan:
it aborts exactly when there are fewer constants than placeholders. -/
theorem subChars_eq_none_iff (cs : List Char) :
    ∀ ps : List String, subChars cs ps = none ↔ ps.length < cs.count '?' := by
  induction cs with
  | nil => intro ps; simp [subChars]
  | cons c rest ih =>
    intro ps
    by_cases hc : c = '?'
    · subst hc
      cases ps with
      | nil => simp [subChars, List.count_cons]
      | cons p ps' =>
        simp [subChars, ih ps', List.count_cons]
    · simp [subChars, hc, ih ps, List.count_cons]

/-- Appending the empty string on the left is the identity. -/
theorem string_empty_append (s : String) : "" ++ s = s := by
  obtain ⟨d⟩ := s
  rfl

/-- String concatenation is associative. -/
theorem string_append_assoc (a b c : String) : a ++ b ++ c = a ++ (b ++ c) := by
  obtain ⟨x⟩ := a
  obtain ⟨y⟩ := b
  obtain ⟨z⟩ := c
  show String.mk (x ++ y ++ z) = String.mk (x ++ (y ++ z))
  rw [List.append_assoc]

/-- Round-half-even of an integer is that integer. -/
theorem roundHalfEven_intCast (n : ℤ) : roundHalfEven (n : ℚ) = n := by
  simp [roundHalfEven]

/-- Evaluation of `pyRound2` when the argument is an exact multiple of a
hundredth. -/
theorem pyRound2_eq (x : ℚ) (n : ℤ) (h : x * 100 = (n : ℚ)) :
    pyRound2 x = (n : ℚ) / 100 := by
  rw [pyRound2, h, roundHalfEven_intCast]

/-- Round-half-even moves a rational by at most one half. -/
theorem abs_roundHalfEven_sub_le (y : ℚ) : |(roundHalfEven y : ℚ) - y| ≤ 1/2 := by
  have h1 : (⌊y⌋ : ℚ) ≤ y := Int.floor_le y
  have h2 : y < ⌊y⌋ + 1 := Int.lt_floor_add_one y
  simp only [roundHalfEven]
  split_ifs with ha hb hc
  · rw [abs_le]
    constructor <;> linarith
  · rw [abs_le]
    push_cast
    constructor <;> linarith
  · rw [abs_le]
    constructor <;> linarith
  · rw [abs_le]
    push_cast
    constructor <;> linarith

/-- Evaluation of `fracDigits` at zero. -/
theorem fracDigits_zero : fracDigits 0 = "0" := by decide

/-- Evaluation of `pyFloatRepr` on (the rational image of) a natural
number: Python prints a trailing `.0`. -/
theorem pyFloatRepr_natCast (n : ℕ) : pyFloatRepr (n : ℚ) = toString n ++ ".0" := by
  have h0 : ¬ ((n : ℚ) < 0) := not_lt.mpr (Nat.cast_nonneg n)
  have habs : |(n : ℚ)| = (n : ℚ) := abs_of_nonneg (Nat.cast_nonneg n)
  simp only [pyFloatRepr, habs, if_neg h0, Int.floor_natCast, Int.cast_natCast,
    Int.toNat_natCast, sub_self, zero_mul, Int.floor_zero, Int.toNat_zero, fracDigits_zero]
  rw [string_empty_append, string_append_assoc]
  rw [show "." ++ "0" = ".0" from rfl]

/-! Section: claim theorems. -/

/-- C1 counterexample: with query `SELECT * FROM t WHERE a = ? AND b = ?`
and the single constant `1`, the result is NOT the claimed string with the
first placeholder replaced and the second left: the whole substitution is
discarded. -/
theorem format_jumbled_query_shortage_cex :
    format_jumbled_query "SELECT * FROM t WHERE a = ? AND b = ?" ["1"]
      ≠ "SELECT * FROM t WHERE a = 1 AND b = ?" := by
  decide

/-- C1 (amended): substitution is positional — with constants `1`,`2` the
query becomes `SELECT * FROM t WHERE a = 1 AND b = 2` — and when the
constants run short, the `StopIteration` raised mid-substitution discards
the partially substituted text, so the original query is returned with
every placeholder (including the first) left unreplaced. -/
theorem format_jumbled_query_spec :
    format_jumbled_query "SELECT * FROM t WHERE a = ? AND b = ?" ["1", "2"]
        = "SELECT * FROM t WHERE a = 1 AND b = 2" ∧
    (∀ (sql : String) (params : List String),
      params.length < sql.data.count '?' → format_jumbled_query sql params = sql) := by
  constructor
  · decide
  · intro sql params h
    have hn : subChars sql.data params = none := (subChars_eq_none_iff sql.data params).mpr h
    simp only [format_jumbled_query, hn]

/-- C1 witness: the shortage branch of the amended theorem evaluated at
the claim's concrete input. -/
theorem format_jumbled_query_spec_witness :
    format_jumbled_query "SELECT * FROM t WHERE a = ? AND b = ?" ["1"]
      = "SELECT * FROM t WHERE a = ? AND b = ?" :=
  format_jumbled_query_spec.2 "SELECT * FROM t WHERE a = ? AND b = ?" ["1"] (by decide)

/-- C5: `gain_percent` is `100 - hypocost*100/basecost` rounded to two
decimals (the result is an integer number of hundredths within 1/200 of
the exact value) whenever `basecost` is non-zero; basecost 100 with
hypocost 80 gives 20, with hypocost 100 gives 0; and a zero `basecost` is
an unguarded `ZeroDivisionError`. -/
theorem hypoplan_gain_percent_spec :
    (∀ p : HypoPlan, p.basecost ≠ 0 →
      p.gain_percent = Except.ok (pyRound2 (100 - p.hypocost * 100 / p.basecost))) ∧
    (∀ x : ℚ, |pyRound2 x - x| ≤ 1/200 ∧ (pyRound2 x * 100).den = 1) ∧
    (∀ p : HypoPlan, p.basecost = 0 → p.gain_percent = Except.error "ZeroDivisionError") ∧
    (samplePlan 100 80).gain_percent = Except.ok 20 ∧
    (samplePlan 100 100).gain_percent = Except.ok 0 := by
  refine ⟨?_, ?_, ?_, ?_, ?_⟩
  · intro p hp
    simp [HypoPlan.gain_percent, hp]
  · intro x
    constructor
    · have h := abs_roundHalfEven_sub_le (x * 100)
      have e : pyRound2 x - x = ((roundHalfEven (x * 100) : ℚ) - x * 100) / 100 := by
        rw [pyRound2]; ring
      rw [e, abs_div, abs_of_pos (show (0:ℚ) < 100 by norm_num)]
      linarith
    · rw [pyRound2, div_mul_cancel₀ _ (show (100:ℚ) ≠ 0 by norm_num)]
      exact Rat.den_intCast _
  · intro p hp
    simp [HypoPlan.gain_percent, hp]
  · simp only [HypoPlan.gain_percent, samplePlan]
    rw [if_neg (by norm_num)]
    rw [pyRound2_eq _ 2000 (by norm_num)]
    norm_num
  · simp only [HypoPlan.gain_percent, samplePlan]
    rw [if_neg (by norm_num)]
    rw [pyRound2_eq _ 0 (by norm_num)]
    norm_num

/-- C5 witness: the zero-basecost fault and the non-zero branch evaluated
at concrete plans. -/
theorem hypoplan_gain_percent_spec_witness :
    (samplePlan 0 80).gain_percent = Except.error "ZeroDivisionError" ∧
    (samplePlan 100 80).gain_percent
      = Except.ok (pyRound2 (100 - (samplePlan 100 80).hypocost * 100
          / (samplePlan 100 80).basecost)) :=
  ⟨hypoplan_gain_percent_spec.2.2.1 (samplePlan 0 80) rfl,
   hypoplan_gain_percent_spec.1 (samplePlan 100 80) (by norm_num [samplePlan])⟩

/-- C6: the DDL is `None` for every access method other than btree, and a
btree index over ordered columns `a`, `b` on schema `s`, relation `t`
yields exactly `CREATE INDEX ON "s"."t"("a","b")`. -/
theorem hypoindex_ddl_spec :
    (∀ hi : HypoIndex, hi.amname ≠ "btree" → hi.ddl = none) ∧
    HypoIndex.ddl { nspname := "s", relname := "t", amname := "btree",
                    qual := [sampleRQ "a" ["btree"], sampleRQ "b" ["btree"]],
                    name := none }
      = some "CREATE INDEX ON \"s\".\"t\"(\"a\",\"b\")" := by
  constructor
  · intro hi h
    simp [HypoIndex.ddl, h]
  · decide

/-- C6 witness: the non-btree branch of the theorem evaluated at a
concrete brin index. -/
theorem hypoindex_ddl_spec_witness :
    HypoIndex.ddl { nspname := "s", relname := "t", amname := "brin",
                    qual := [sampleRQ "a" ["brin"]], name := none } = none :=
  hypoindex_ddl_spec.1 _ (by decide)

/-- C9: `distinct_values` renders the plain number when `n_distinct` is
positive and the absolute value times one hundred suffixed with `" %"`
when it is negative; in particular `n_distinct = -0.5` renders as
`"50.0 %"`. -/
theorem distinct_values_spec :
    (∀ rq : ResolvedQual, 0 < rq.n_distinct →
      rq.distinct_values = pyFloatRepr rq.n_distinct) ∧
    (∀ rq : ResolvedQual, rq.n_distinct < 0 →
      rq.distinct_values = pyFloatRepr (|rq.n_distinct| * 100) ++ " %") ∧
    (sampleRQnd (-(1/2))).distinct_values = "50.0 %" := by
  refine ⟨?_, ?_, ?_⟩
  · intro rq h
    simp [ResolvedQual.distinct_values, h]
  · intro rq h
    simp [ResolvedQual.distinct_values, not_lt.mpr h.le, asymm h]
  · have h0 : ¬ (0 < (sampleRQnd (-(1/2))).n_distinct) := by
      norm_num [sampleRQnd, sampleRQ]
    have h1 : |(sampleRQnd (-(1/2))).n_distinct| * 100 = ((50 : ℕ) : ℚ) := by
      have hnd : (sampleRQnd (-(1/2))).n_distinct = -(1/2) := rfl
      rw [hnd, abs_neg, abs_of_pos (show (0:ℚ) < 1/2 by norm_num)]
      norm_num
    rw [ResolvedQual.distinct_values, if_neg h0, h1, pyFloatRepr_natCast]
    decide

/-- C9 witness: the negative branch of the theorem evaluated at the
claim's concrete input. -/
theorem distinct_values_spec_witness :
    (sampleRQnd (-(1/2))).distinct_values
      = pyFloatRepr (|(sampleRQnd (-(1/2))).n_distinct| * 100) ++ " %" :=
  distinct_values_spec.2.1 (sampleRQnd (-(1/2))) (by norm_num [sampleRQnd, sampleRQ])

/-- C10: any criterion other than the three recognized ones yields `None`,
uniformly in the filter clause (which is never consulted) and the top
limit; each recognized criterion yields a ranking sub-query. -/
theorem qual_constants_criteria_spec :
    (∀ type_ : String, type_ ∉ ["most_executed", "most_filtering", "least_filtering"] →
      ∀ (fc : FilterClause) (top : ℕ), qual_constants type_ fc top = none) ∧
    (∀ type_ ∈ ["most_executed", "most_filtering", "least_filtering"],
      ∀ (fc : FilterClause) (top : ℕ), (qual_constants type_ fc top).isSome) := by
  constructor
  · intro t ht fc top
    simp [qual_constants, ht]
  · intro t ht fc top
    simp only [qual_constants, if_neg (not_not_intro ht), Option.isSome_some]

/-- C10 witness: an unrecognized criterion returns `None` on a concrete
filter clause, and a recognized one returns a query. -/
theorem qual_constants_criteria_spec_witness :
    qual_constants "bogus" { sql := "datname = x", params := [] } 1 = none ∧
    (qual_constants "most_executed" { sql := "datname = x", params := [] } 1).isSome :=
  ⟨qual_constants_criteria_spec.1 "bogus" (by decide) _ 1,
   qual_constants_criteria_spec.2 "most_executed" (by decide) _ 1⟩

/-- Successful monadic map (in its non-tail-recursive form) over
`Except`: one output per input, the i-th output produced by the function
on the i-th input. -/
theorem mapM'_ok_spec {α β : Type} (f : α → Except PyError β) :
    ∀ (l : List α) (out : List β), l.mapM' f = Except.ok out →
      out.length = l.length ∧
      ∀ i (h : i < l.length) (h' : i < out.length),
        f (l.get ⟨i, h⟩) = Except.ok (out.get ⟨i, h'⟩) := by
  intro l
  induction l with
  | nil =>
    intro out h
    simp only [List.mapM'_nil, pure, Except.pure, Except.ok.injEq] at h
    subst h
    refine ⟨rfl, ?_⟩
    intro i hi
    exact absurd hi (by simp)
  | cons a t ih =>
    intro out h
    rw [List.mapM'_cons] at h
    cases hfa : f a with
    | error e => simp [hfa, Bind.bind, Except.bind] at h
    | ok b =>
      cases hml : t.mapM' f with
      | error e => simp [hfa, hml, Bind.bind, Except.bind] at h
      | ok bs =>
        have hout : b :: bs = out := by
          simpa [hfa, hml, Bind.bind, Except.bind, pure, Except.pure] using h
        subst hout
        obtain ⟨hl, hrest⟩ := ih bs hml
        refine ⟨by simp [hl], ?_⟩
        intro i h1 h2
        cases i with
        | zero => simpa using hfa
        | succ n =>
          have h1' : n < t.length := by simpa using h1
          have h2' : n < bs.length := by simpa using h2
          simpa using hrest n h1' h2'

/-- Transfer of `mapM'_ok_spec` along the tail-recursive `mapM`. -/
theorem mapM_ok_spec {α β : Type} (f : α → Except PyError β) :
    ∀ (l : List α) (out : List β), l.mapM f = Except.ok out →
      out.length = l.length ∧
      ∀ i (h : i < l.length) (h' : i < out.length),
        f (l.get ⟨i, h⟩) = Except.ok (out.get ⟨i, h'⟩) := by
  intro l out h
  rw [← List.mapM'_eq_mapM] at h
  exact mapM'_ok_spec f l out h

/-- C2: during the composed-qual building pass, processing a part whose
resolved relation name differs from the already-set relation name of the
`ComposedQual` raises the `ValueError` immediately, while a part whose
relation name matches is appended, extending the ordered part sequence by
exactly one. -/
theorem composedqual_relation_guard :
    ∀ (attnames : String → Option AttRecord) (operators : Nat → Option OpRecord)
      (cq : ComposedQual) (v : QualRef) (r : String) (att : AttRecord),
      cq.relname = some r →
      attnames (v.relid ++ "." ++ toString v.attnum) = some att →
      (att.relname ≠ r →
        processValue attnames operators cq v =
          Except.error (PyError.valueError
            "All individual qual parts should be on the same relation")) ∧
      (∀ op, att.relname = r → operators v.opno = some op →
        processValue attnames operators cq v
            = Except.ok (cq.append (mkResolvedQual att op v)) ∧
          (cq.append (mkResolvedQual att op v)).quals
            = cq.quals ++ [mkResolvedQual att op v] ∧
          (mkResolvedQual att op v).relname = att.relname) := by
  intro attnames operators cq v r att hrel hatt
  constructor
  · intro hne
    simp only [processValue, hatt, getOrKeyError, hrel, Bind.bind, Except.bind]
    rw [if_pos (fun h => hne h.symm)]
  · intro op heq hop
    refine ⟨?_, rfl, rfl⟩
    simp only [processValue, hatt, getOrKeyError, hrel, hop, Bind.bind, Except.bind]
    rw [if_neg (by simp [heq])]

/-- C2 witness: on concrete data, a mismatching part raises and a
matching part extends the sequence by one. -/
theorem composedqual_relation_guard_witness :
    processValue sampleAttCat sampleOpCat
        { sampleComposed with relname := some "other" } sampleRef
      = Except.error
          (PyError.valueError "All individual qual parts should be on the same relation") ∧
    processValue sampleAttCat sampleOpCat sampleComposed sampleRef
      = Except.ok (sampleComposed.append (mkResolvedQual sampleAtt sampleOp sampleRef)) :=
  ⟨(composedqual_relation_guard sampleAttCat sampleOpCat _ sampleRef "other" sampleAtt
      rfl rfl).1 (by decide),
   ((composedqual_relation_guard sampleAttCat sampleOpCat sampleComposed sampleRef "t"
      sampleAtt rfl rfl).2 sampleOp rfl rfl).1⟩

/-- C3 (code bug): the batching scan wraps a single non-list qual object
into a one-element list, but the composed-qual building pass iterates the
raw object before its `isinstance` guard, so a row carrying a single
predicate-reference object raises `TypeError` instead of producing one
`ComposedQual`; the same reference wrapped in a list succeeds.  The query
log shows the first pass handled the single object fine. -/
theorem resolve_quals_single_qual_bug :
    (resolve_quals sampleOpCat sampleAttCat [sampleRowSingle]).1
        = Except.error PyError.typeError ∧
    (resolve_quals sampleOpCat sampleAttCat [sampleRowSingle]).2
        = [CatalogQuery.opQuery [5], CatalogQuery.attQuery [("1", 2)]] ∧
    (resolve_quals sampleOpCat sampleAttCat [sampleRowList]).1
        = Except.ok [sampleComposed] := by
  refine ⟨by decide, by decide, by decide⟩

/-- C4: whenever `resolve_quals` succeeds, it returns exactly one
`ComposedQual` per input row, and the i-th output is the one built from
the i-th input row. -/
theorem resolve_quals_one_output_per_row :
    ∀ (opCat : Nat → Option OpRecord) (attCat : String → Option AttRecord)
      (rows : List QualRow) (out : List ComposedQual),
      (resolve_quals opCat attCat rows).1 = Except.ok out →
      out.length = rows.length ∧
      ∀ i (h : i < rows.length) (h' : i < out.length),
        processRow (attnamesFor attCat (collectAtts rows))
            (operatorsFor opCat (collectOps rows)) (rows.get ⟨i, h⟩)
          = Except.ok (out.get ⟨i, h'⟩) := by
  intro opCat attCat rows out h
  have h' : rows.mapM (processRow (attnamesFor attCat (collectAtts rows))
      (operatorsFor opCat (collectOps rows))) = Except.ok out := by
    simpa [resolve_quals] using h
  exact mapM_ok_spec _ rows out h'

/-- C4 witness: a concrete one-row run, with the output built from that
row. -/
theorem resolve_quals_one_output_per_row_witness :
    ([sampleComposed] : List ComposedQual).length = [sampleRowList].length :=
  (resolve_quals_one_output_per_row sampleOpCat sampleAttCat [sampleRowList]
    [sampleComposed] (by decide)).1

/-- C8: no operator-catalog query is issued when the collected operator-id
set is empty (and the operator mapping stays empty), exactly one batched
operator query is issued when it is non-empty — carrying the whole id set,
never one query per id — and symmetrically for the attribute set; every
run issues at most two catalog queries. -/
theorem resolve_quals_batched_lookups :
    ∀ (opCat : Nat → Option OpRecord) (attCat : String → Option AttRecord)
      (rows : List QualRow),
      (collectOps rows = [] →
        (resolve_quals opCat attCat rows).2.filter CatalogQuery.isOp = [] ∧
        ∀ n, operatorsFor opCat (collectOps rows) n = none) ∧
      (collectOps rows ≠ [] →
        (resolve_quals opCat attCat rows).2.filter CatalogQuery.isOp
          = [CatalogQuery.opQuery (collectOps rows)]) ∧
      (collectAtts rows = [] →
        (resolve_quals opCat attCat rows).2.filter CatalogQuery.isAtt = [] ∧
        ∀ k, attnamesFor attCat (collectAtts rows) k = none) ∧
      (collectAtts rows ≠ [] →
        (resolve_quals opCat attCat rows).2.filter CatalogQuery.isAtt
          = [CatalogQuery.attQuery (collectAtts rows)]) ∧
      (resolve_quals opCat attCat rows).2.length ≤ 2 := by
  intro opCat attCat rows
  have hlog : (resolve_quals opCat attCat rows).2
      = catalogLog (collectOps rows) (collectAtts rows) := rfl
  by_cases h1 : collectOps rows = [] <;> by_cases h2 : collectAtts rows = [] <;>
    simp [hlog, catalogLog, operatorsFor, attnamesFor, h1, h2,
      CatalogQuery.isOp, CatalogQuery.isAtt, List.isEmpty_iff]

/-- C8 witness: a run over one row referencing one operator and one
attribute issues exactly the two batched queries, and the empty run
issues none. -/
theorem resolve_quals_batched_lookups_witness :
    (resolve_quals sampleOpCat sampleAttCat [sampleRowList]).2.filter CatalogQuery.isOp
        = [CatalogQuery.opQuery (collectOps [sampleRowList])] ∧
    (resolve_quals sampleOpCat sampleAttCat ([] : List QualRow)).2.filter CatalogQuery.isOp
        = [] :=
  ⟨(resolve_quals_batched_lookups sampleOpCat sampleAttCat [sampleRowList]).2.1
      (by decide),
   ((resolve_quals_batched_lookups sampleOpCat sampleAttCat []).1 (by decide)).1⟩

/-- Evaluation of `lookupAm` over a list head whose key matches. -/
theorem lookupAm_cons_of_eq (p : String × List ResolvedQual)
    (rest : List (String × List ResolvedQual)) (am : String) (h : p.1 = am) :
    lookupAm (p :: rest) am = some p.2 := by
  rw [lookupAm, List.find?_cons_of_pos rest (by simpa using h)]
  rfl

/-- Evaluation of `lookupAm` over a list head whose key differs. -/
theorem lookupAm_cons_of_ne (p : String × List ResolvedQual)
    (rest : List (String × List ResolvedQual)) (am : String) (h : ¬ p.1 = am) :
    lookupAm (p :: rest) am = lookupAm rest am := by
  rw [lookupAm, List.find?_cons_of_neg rest (by simpa using h), lookupAm]

/-- A `lookupAm` step across one `addToAm`: the updated key's group gains
`q` at the end, every other key is untouched. -/
theorem lookupAm_addToAm (acc : List (String × List ResolvedQual)) (x : String)
    (q : ResolvedQual) (am : String) :
    lookupAm (addToAm acc x q) am =
      if am = x then some (((lookupAm acc am).getD []) ++ [q])
      else lookupAm acc am := by
  induction acc with
  | nil =>
    by_cases ham : am = x
    · subst ham
      rw [addToAm, lookupAm_cons_of_eq (am, [q]) [] am rfl, if_pos rfl]
      rfl
    · rw [addToAm, lookupAm_cons_of_ne (x, [q]) [] am (fun h => ham h.symm), if_neg ham]
  | cons p rest ih =>
    by_cases hp : p.1 = x
    · rw [addToAm, if_pos hp]
      by_cases ham : am = x
      · subst ham
        rw [lookupAm_cons_of_eq (p.1, p.2 ++ [q]) rest am hp, if_pos rfl,
          lookupAm_cons_of_eq p rest am hp]
        rfl
      · have hpam : ¬ p.1 = am := fun h => ham (h.symm.trans hp)
        rw [lookupAm_cons_of_ne (p.1, p.2 ++ [q]) rest am hpam, if_neg ham,
          lookupAm_cons_of_ne p rest am hpam]
    · rw [addToAm, if_neg hp]
      by_cases ham : p.1 = am
      · have hax : ¬ am = x := fun h => hp (ham.trans h)
        rw [lookupAm_cons_of_eq p (addToAm rest x q) am ham, if_neg hax,
          lookupAm_cons_of_eq p rest am ham]
      · rw [lookupAm_cons_of_ne p (addToAm rest x q) am ham, ih,
          lookupAm_cons_of_ne p rest am ham]

/-- The keys after an `addToAm`: unchanged for an existing key, the new
key appended at the end otherwise. -/
theorem keys_addToAm (acc : List (String × List ResolvedQual)) (x : String)
    (q : ResolvedQual) :
    (addToAm acc x q).map Prod.fst =
      if x ∈ acc.map Prod.fst then acc.map Prod.fst else acc.map Prod.fst ++ [x] := by
  induction acc with
  | nil => simp [addToAm]
  | cons p rest ih =>
    by_cases hp : p.1 = x
    · rw [addToAm, if_pos hp]
      simp [hp]
    · rw [addToAm, if_neg hp]
      have hxp : ¬ x = p.1 := fun he => hp he.symm
      by_cases hx : x ∈ rest.map Prod.fst
      · simp [ih, hx, hxp]
      · simp [ih, hx, hxp]

/-- An `addToAm` keeps the keys duplicate-free. -/
theorem keysNodup_addToAm (acc : List (String × List ResolvedQual)) (x : String)
    (q : ResolvedQual) (h : (acc.map Prod.fst).Nodup) :
    ((addToAm acc x q).map Prod.fst).Nodup := by
  rw [keys_addToAm]
  by_cases hx : x ∈ acc.map Prod.fst
  · rwa [if_pos hx]
  · rw [if_neg hx]
    simp [List.nodup_append, h, hx]

/-- With duplicate-free keys, `lookupAm` retrieves any stored entry. -/
theorem lookupAm_of_mem :
    ∀ (acc : List (String × List ResolvedQual)), (acc.map Prod.fst).Nodup →
      ∀ (k : String) (v : List ResolvedQual), (k, v) ∈ acc → lookupAm acc k = some v := by
  intro acc
  induction acc with
  | nil => intro _ k v hv; exact absurd hv (by simp)
  | cons p rest ih =>
    intro hnd k v hv
    have hnd' : (rest.map Prod.fst).Nodup := (List.nodup_cons.mp hnd).2
    rcases List.mem_cons.mp hv with h | h
    · rw [← h] at hnd ⊢
      exact lookupAm_cons_of_eq (k, v) rest k rfl
    · have hk : k ∈ rest.map Prod.fst := List.mem_map.mpr ⟨(k, v), h, rfl⟩
      have hp : ¬ p.1 = k := fun he => (List.nodup_cons.mp hnd).1 (he ▸ hk)
      rw [lookupAm_cons_of_ne p rest k hp]
      exact ih hnd' k v h

/-- A generic preservation principle for `List.foldl`. -/
theorem foldl_preserve {α β : Type} (P : α → Prop) (f : α → β → α)
    (hf : ∀ a b, P a → P (f a b)) :
    ∀ (l : List β) (a : α), P a → P (l.foldl f a) := by
  intro l
  induction l with
  | nil => intro a ha; exact ha
  | cons b t ih => intro a ha; exact ih (f a b) (hf a b ha)

/-- Folding one qual's duplicate-free access-method list into the
grouping: the group of every listed method gains `q` at the end, all
other groups are untouched. -/
theorem lookupAm_foldl_ams (q : ResolvedQual) :
    ∀ (ams : List String), ams.Nodup →
      ∀ (acc : List (String × List ResolvedQual)) (am : String),
      lookupAm (ams.foldl (fun a x => addToAm a x q) acc) am =
        if am ∈ ams then some (((lookupAm acc am).getD []) ++ [q])
        else lookupAm acc am := by
  intro ams
  induction ams with
  | nil => intro _ acc am; simp
  | cons x t ih =>
    intro hnd acc am
    have hx : x ∉ t := (List.nodup_cons.mp hnd).1
    have ht : t.Nodup := (List.nodup_cons.mp hnd).2
    rw [List.foldl_cons, ih ht]
    by_cases hmt : am ∈ t
    · have hax : ¬ am = x := fun h => hx (h ▸ hmt)
      rw [if_pos hmt, if_pos (List.mem_cons.mpr (Or.inr hmt)), lookupAm_addToAm, if_neg hax]
    · rw [if_neg hmt, lookupAm_addToAm]
      by_cases hax : am = x
      · rw [if_pos hax, if_pos (List.mem_cons.mpr (Or.inl hax))]
      · rw [if_neg hax, if_neg (by simp [hax, hmt])]

/-- The grouping fold of `possible_indexes`, characterised: each access
method's group is exactly the original-order sublist of parts supporting
it (provided each part lists its methods without duplicates, as the
`array_agg(distinct ...)` in the catalog query guarantees). -/
theorem lookupAm_buildByAm_aux :
    ∀ (quals : List ResolvedQual), (∀ q ∈ quals, q.indexam_names.Nodup) →
      ∀ (acc : List (String × List ResolvedQual)) (am : String),
        lookupAm (quals.foldl
            (fun a q => q.indexam_names.foldl (fun a' x => addToAm a' x q) a) acc) am =
          if (quals.filter (fun q => decide (am ∈ q.indexam_names))) = [] then lookupAm acc am
          else some (((lookupAm acc am).getD [])
            ++ quals.filter (fun q => decide (am ∈ q.indexam_names))) := by
  intro quals
  induction quals with
  | nil => intro _ acc am; simp
  | cons q t ih =>
    intro h acc am
    have hq : q.indexam_names.Nodup := h q (List.mem_cons_self q t)
    have ht : ∀ r ∈ t, r.indexam_names.Nodup := fun r hr => h r (List.mem_cons_of_mem q hr)
    rw [List.foldl_cons, ih ht]
    by_cases hqam : am ∈ q.indexam_names
    · rw [List.filter_cons_of_pos (by simpa using hqam)]
      by_cases hft : List.filter (fun r => decide (am ∈ r.indexam_names)) t = []
      · rw [if_pos hft, if_neg (List.cons_ne_nil _ _), lookupAm_foldl_ams q _ hq,
          if_pos hqam, hft]
      · rw [if_neg hft, if_neg (List.cons_ne_nil _ _), lookupAm_foldl_ams q _ hq,
          if_pos hqam, Option.getD_some, List.append_assoc, List.singleton_append]
    · rw [List.filter_cons_of_neg (by simpa using hqam)]
      by_cases hft : List.filter (fun r => decide (am ∈ r.indexam_names)) t = []
      · rw [if_pos hft, if_pos hft, lookupAm_foldl_ams q _ hq, if_neg hqam]
      · rw [if_neg hft, if_neg hft, lookupAm_foldl_ams q _ hq, if_neg hqam]

/-- Specialisation of the fold characterisation to `buildByAm`. -/
theorem lookupAm_buildByAm (quals : List ResolvedQual)
    (h : ∀ q ∈ quals, q.indexam_names.Nodup) (am : String) :
    lookupAm (buildByAm quals) am =
      if (quals.filter (fun q => decide (am ∈ q.indexam_names))) = [] then none
      else some (quals.filter (fun q => decide (am ∈ q.indexam_names))) := by
  rw [buildByAm, lookupAm_buildByAm_aux quals h [] am]
  by_cases he : (quals.filter (fun q => decide (am ∈ q.indexam_names))) = []
  · rw [if_pos he, if_pos he]
    rfl
  · rw [if_neg he, if_neg he]
    rfl

/-- The grouping fold keeps the keys duplicate-free. -/
theorem keysNodup_buildByAm (quals : List ResolvedQual) :
    ((buildByAm quals).map Prod.fst).Nodup := by
  rw [buildByAm]
  exact foldl_preserve (fun acc => (acc.map Prod.fst).Nodup)
    (fun a q => q.indexam_names.foldl (fun a' x => addToAm a' x q) a)
    (fun a q ha =>
      foldl_preserve (fun acc => (acc.map Prod.fst).Nodup)
        (fun a' x => addToAm a' x q)
        (fun a' x ha' => keysNodup_addToAm a' x q ha')
        q.indexam_names a ha)
    quals [] (by simp)

/-- Key membership in the grouping coincides with `lookupAm` success. -/
theorem mem_keys_iff_lookupAm (acc : List (String × List ResolvedQual)) (am : String) :
    am ∈ acc.map Prod.fst ↔ (lookupAm acc am).isSome := by
  rw [lookupAm, Option.isSome_map', List.find?_isSome]
  constructor
  · intro h
    obtain ⟨p, hp, he⟩ := List.mem_map.mp h
    exact ⟨p, hp, by simp [he]⟩
  · intro ⟨p, hp, he⟩
    exact List.mem_map.mpr ⟨p, hp, by simpa using he⟩

/-- Every stored group in the grouping is the supporting-parts sublist,
and in particular non-empty. -/
theorem mem_buildByAm_spec (quals : List ResolvedQual)
    (h : ∀ q ∈ quals, q.indexam_names.Nodup) :
    ∀ p ∈ buildByAm quals,
      p.2 = quals.filter (fun q => decide (p.1 ∈ q.indexam_names)) ∧ p.2 ≠ [] := by
  intro p hp
  have hl : lookupAm (buildByAm quals) p.1 = some p.2 := by
    have := lookupAm_of_mem (buildByAm quals) (keysNodup_buildByAm quals) p.1 p.2
    exact this (by simpa using hp)
  rw [lookupAm_buildByAm quals h p.1] at hl
  by_cases he : (quals.filter (fun q => decide (p.1 ∈ q.indexam_names))) = []
  · rw [if_pos he] at hl
    exact absurd hl (by simp)
  · rw [if_neg he] at hl
    have h2 := Option.some_injective _ hl
    exact ⟨h2.symm, h2 ▸ he⟩

/-- Evaluation of `mkIndex` on a non-empty group. -/
theorem mkIndex_cons (am : String) (base : ResolvedQual) (rest : List ResolvedQual) :
    mkIndex am (base :: rest)
      = some { nspname := base.nspname, relname := base.relname, amname := am,
               qual := base :: rest, name := none } := rfl

/-- Emitting the indexes keeps one access-method name per group, in
order, when every group is non-empty. -/
theorem filterMap_mkIndex_amnames :
    ∀ (l : List (String × List ResolvedQual)), (∀ p ∈ l, p.2 ≠ []) →
      (l.filterMap (fun p => mkIndex p.1 p.2)).map HypoIndex.amname = l.map Prod.fst := by
  intro l
  induction l with
  | nil => intro _; rfl
  | cons p t ih =>
    intro h
    have hp : p.2 ≠ [] := h p (List.mem_cons_self p t)
    obtain ⟨base, rest2, hbr⟩ := List.exists_cons_of_ne_nil hp
    rw [@List.filterMap_cons_some _ _ (fun p => mkIndex p.1 p.2) p t
      { nspname := base.nspname, relname := base.relname, amname := p.1,
        qual := base :: rest2, name := none }
      (by simp only [hbr, mkIndex_cons])]
    simp only [List.map_cons]
    rw [ih (fun r hr => h r (List.mem_cons_of_mem p hr))]

/-- C7: `possible_indexes` groups the parts of a composed qual by
compatible access-method name; for every access method supported by at
least one part it emits exactly one `HypoIndex` (the emitted method names
are duplicate-free and are exactly the supported methods), whose part
list is exactly the supporting parts in their original order, attributed
to the namespace and relation of the group's first member; on a composed
qual with two parts supporting btree and brin respectively it returns the
two singleton indexes.  Parts are assumed to list their supported access
methods without duplicates, as the catalog query's
`array_agg(distinct amname)` guarantees. -/
theorem possible_indexes_spec :
    (∀ cq : ComposedQual, (∀ q ∈ cq.quals, q.indexam_names.Nodup) →
      (∀ hi ∈ possible_indexes cq,
        hi.qual = cq.quals.filter (fun q => decide (hi.amname ∈ q.indexam_names)) ∧
        ∃ base rest, hi.qual = base :: rest ∧ hi.nspname = base.nspname ∧
          hi.relname = base.relname) ∧
      ((possible_indexes cq).map HypoIndex.amname).Nodup ∧
      (∀ am, am ∈ (possible_indexes cq).map HypoIndex.amname ↔
        ∃ q ∈ cq.quals, am ∈ q.indexam_names)) ∧
    possible_indexes sampleComposedTwoAms =
      [{ nspname := "s", relname := "t", amname := "btree",
         qual := [sampleRQ "a" ["btree"]], name := none },
       { nspname := "s", relname := "t", amname := "brin",
         qual := [sampleRQ "b" ["brin"]], name := none }] := by
  constructor
  · intro cq h
    have hspec := mem_buildByAm_spec cq.quals h
    have hamnames : (possible_indexes cq).map HypoIndex.amname
        = (buildByAm cq.quals).map Prod.fst :=
      filterMap_mkIndex_amnames (buildByAm cq.quals) (fun p hp => (hspec p hp).2)
    refine ⟨?_, ?_, ?_⟩
    · intro hi hhi
      obtain ⟨p, hp, hmk⟩ := List.mem_filterMap.mp hhi
      obtain ⟨hfilter, hne⟩ := hspec p hp
      obtain ⟨base, rest2, hbr⟩ := List.exists_cons_of_ne_nil hne
      rw [hbr, mkIndex_cons] at hmk
      have hhi' := Option.some_injective _ hmk
      refine ⟨?_, base, rest2, ?_, ?_, ?_⟩
      · rw [← hhi']
        exact hbr ▸ hfilter
      · rw [← hhi']
      · rw [← hhi']
      · rw [← hhi']
    · rw [hamnames]
      exact keysNodup_buildByAm cq.quals
    · intro am
      rw [hamnames, mem_keys_iff_lookupAm, lookupAm_buildByAm cq.quals h am]
      by_cases he : (cq.quals.filter (fun q => decide (am ∈ q.indexam_names))) = []
      · rw [if_pos he]
        simp only [Option.isSome_none, Bool.false_eq_true, false_iff]
        intro ⟨q, hq, hqam⟩
        have hmem : q ∈ cq.quals.filter (fun r => decide (am ∈ r.indexam_names)) :=
          List.mem_filter.mpr ⟨hq, by simpa using hqam⟩
        rw [he] at hmem
        exact absurd hmem (by simp)
      · rw [if_neg he]
        simp only [Option.isSome_some, true_iff]
        obtain ⟨q, hq⟩ := List.exists_mem_of_ne_nil _ he
        obtain ⟨hq1, hq2⟩ := List.mem_filter.mp hq
        exact ⟨q, hq1, by simpa using hq2⟩
  · decide

/-- C7 witness: the general part of the theorem applied to the concrete
two-method composed qual, whose hypothesis holds by evaluation. -/
theorem possible_indexes_spec_witness :
    ((possible_indexes sampleComposedTwoAms).map HypoIndex.amname).Nodup :=
  (possible_indexes_spec.1 sampleComposedTwoAms (by decide)).2.1

end Powa
